import Mathlib

/-!
Verification of the email-finder Raycast extension core logic.

The definitions below are a shallow embedding of the TypeScript sources:
  - src/extensions/email-finder/src/company-employees.tsx
    (employee mapping, department grouping, pagination accumulation)
  - src/extensions/email-finder/src/backend.ts
    (paid-lookup response handling, insufficient-credit errors)
  - src/extensions/email-finder/src/history-storage.ts
    (bounded dual-kind search history)
  - the email-finder command file (mapResponseToEnrichedData, EnrichedData)

Modelling conventions:
  - JS strings are Lean String; optional fields are Option.
  - JS falsy-fallback (x || d) on strings treats "" like absence
    (strOr / strOrNone below); on numbers it treats 0 like absence (intOr).
  - ISO-8601 createdAt timestamps are represented by their epoch-millisecond
    value (the value new Date(s).getTime() yields); ISO-string comparison via
    Date parsing is order-isomorphic to this Nat.
  - JS Map is an insertion-ordered association list (DeptMap below);
    Map.set on an existing key updates in place, otherwise appends.
  - Array.prototype.sort (stable since ES2019) is modelled by the stable
    insertion sort sortByLe; for a consistent comparator a stable sort's
    output is uniquely determined, so this is observationally faithful.
  - String.prototype.localeCompare is modelled as code-point lexicographic
    comparison (charListLe); the department names and timestamps compared in
    this code are plain ASCII, where the two orders agree.
-/

namespace EmailFinder

/-! ## Generic stable sort (model of Array.prototype.sort) -/

/-- Insert x into l, placing it before the first element y with le x y;
stable for equal elements coming later in the original array. -/
def insertByLe {α : Type} (le : α → α → Bool) (x : α) : List α → List α
  | [] => [x]
  | y :: ys => if le x y then x :: y :: ys else y :: insertByLe le x ys

/-- Stable insertion sort: the model of JS Array.prototype.sort with a
consistent comparator. -/
def sortByLe {α : Type} (le : α → α → Bool) (l : List α) : List α :=
  l.foldr (insertByLe le) []

theorem insertByLe_perm {α : Type} (le : α → α → Bool) (x : α) (l : List α) :
    (insertByLe le x l).Perm (x :: l) := by
  induction l with
  | nil => simp [insertByLe]
  | cons y ys ih =>
    simp only [insertByLe]
    split
    · exact List.Perm.refl _
    · exact (List.Perm.cons y ih).trans (List.Perm.swap x y ys)

theorem sortByLe_perm {α : Type} (le : α → α → Bool) (l : List α) :
    (sortByLe le l).Perm l := by
  induction l with
  | nil => simp [sortByLe]
  | cons x xs ih =>
    have h1 : sortByLe le (x :: xs) = insertByLe le x (sortByLe le xs) := rfl
    rw [h1]
    exact (insertByLe_perm le x (sortByLe le xs)).trans (List.Perm.cons x ih)

theorem mem_sortByLe {α : Type} {le : α → α → Bool} {a : α} {l : List α} :
    a ∈ sortByLe le l ↔ a ∈ l :=
  (sortByLe_perm le l).mem_iff

theorem pairwise_insertByLe {α : Type} {le : α → α → Bool}
    (htot : ∀ a b, le a b = true ∨ le b a = true)
    (htrans : ∀ a b c, le a b = true → le b c = true → le a c = true)
    (x : α) {l : List α} (hl : l.Pairwise (fun a b => le a b = true)) :
    (insertByLe le x l).Pairwise (fun a b => le a b = true) := by
  induction l with
  | nil => simp [insertByLe]
  | cons y ys ih =>
    rw [List.pairwise_cons] at hl
    obtain ⟨hy, hys⟩ := hl
    simp only [insertByLe]
    split
    · rename_i hxy
      rw [List.pairwise_cons]
      constructor
      · intro b hb
        rcases List.mem_cons.mp hb with hb | hb
        · rw [hb]; exact hxy
        · exact htrans x y b hxy (hy b hb)
      · rw [List.pairwise_cons]; exact ⟨hy, hys⟩
    · rename_i hxy
      have hyx : le y x = true := by
        rcases htot x y with h | h
        · exact absurd h hxy
        · exact h
      rw [List.pairwise_cons]
      constructor
      · intro b hb
        have hb' : b ∈ x :: ys := (insertByLe_perm le x ys).mem_iff.mp hb
        rcases List.mem_cons.mp hb' with hb' | hb'
        · rw [hb']; exact hyx
        · exact hy b hb'
      · exact ih hys

theorem pairwise_sortByLe {α : Type} {le : α → α → Bool}
    (htot : ∀ a b, le a b = true ∨ le b a = true)
    (htrans : ∀ a b c, le a b = true → le b c = true → le a c = true)
    (l : List α) :
    (sortByLe le l).Pairwise (fun a b => le a b = true) := by
  induction l with
  | nil => simp [sortByLe]
  | cons x xs ih => exact pairwise_insertByLe htot htrans x ih

/-! ## Lexicographic string order (model of localeCompare on ASCII names) -/

/-- Code-point lexicographic comparison of char lists. -/
def charListLe : List Char → List Char → Bool
  | [], _ => true
  | _ :: _, [] => false
  | c :: cs, d :: ds =>
    if c.toNat = d.toNat then charListLe cs ds
    else decide (c.toNat < d.toNat)

theorem charListLe_trans :
    ∀ x y z : List Char, charListLe x y = true → charListLe y z = true →
      charListLe x z = true := by
  intro x
  induction x with
  | nil => intro y z _ _; rfl
  | cons c cs ih =>
    intro y z h1 h2
    cases y with
    | nil => simp [charListLe] at h1
    | cons d ds =>
      cases z with
      | nil => simp [charListLe] at h2
      | cons e es =>
        simp only [charListLe] at h1 h2 ⊢
        by_cases hcd : c.toNat = d.toNat
        · rw [if_pos hcd] at h1
          by_cases hde : d.toNat = e.toNat
          · rw [if_pos hde] at h2
            rw [if_pos (hcd.trans hde)]
            exact ih ds es h1 h2
          · rw [if_neg hde] at h2
            have hlt : d.toNat < e.toNat := of_decide_eq_true h2
            have : c.toNat < e.toNat := by omega
            rw [if_neg (by omega)]
            exact decide_eq_true this
        · rw [if_neg hcd] at h1
          have hlt1 : c.toNat < d.toNat := of_decide_eq_true h1
          by_cases hde : d.toNat = e.toNat
          · have : c.toNat < e.toNat := by omega
            rw [if_neg (by omega)]
            exact decide_eq_true this
          · rw [if_neg hde] at h2
            have hlt2 : d.toNat < e.toNat := of_decide_eq_true h2
            have : c.toNat < e.toNat := by omega
            rw [if_neg (by omega)]
            exact decide_eq_true this

theorem charListLe_total :
    ∀ x y : List Char, charListLe x y = true ∨ charListLe y x = true := by
  intro x
  induction x with
  | nil => intro y; left; rfl
  | cons c cs ih =>
    intro y
    cases y with
    | nil => right; rfl
    | cons d ds =>
      simp only [charListLe]
      by_cases hcd : c.toNat = d.toNat
      · rw [if_pos hcd, if_pos hcd.symm]
        exact ih ds
      · rw [if_neg hcd, if_neg (fun h => hcd h.symm)]
        rcases Nat.lt_or_ge c.toNat d.toNat with h | h
        · left; exact decide_eq_true h
        · right; exact decide_eq_true (by omega)

/-- Lexicographic string comparison, the model of a.localeCompare(b) <= 0 on
the ASCII names this code compares. -/
def strLe (a b : String) : Bool := charListLe a.data b.data

theorem strLe_trans (a b c : String) :
    strLe a b = true → strLe b c = true → strLe a c = true :=
  charListLe_trans a.data b.data c.data

theorem strLe_total (a b : String) : strLe a b = true ∨ strLe b a = true :=
  charListLe_total a.data b.data

/-! ## Employees and department grouping (company-employees.tsx) -/

/-- Employee, as mapped from a search result
(company-employees.tsx, interface Employee). -/
structure Employee where
  id : String
  firstName : String
  lastName : String
  fullName : String
  jobTitle : String
  departments : List String
  linkedinUrl : Option String := none
  location : Option String := none
  seniority : Option String := none
deriving Repr, DecidableEq

/-- A department group (company-employees.tsx, interface DepartmentGroup). -/
structure DepartmentGroup where
  name : String
  employees : List Employee
deriving Repr, DecidableEq

/-- JS Map of department name to employees: an insertion-ordered association
list, as Map preserves key insertion order. -/
abbrev DeptMap := List (String × List Employee)

/-- Map.get: the value stored at key k, if any. -/
def mapGet (m : DeptMap) (k : String) : Option (List Employee) :=
  match m with
  | [] => none
  | (k', v) :: rest => if k' = k then some v else mapGet rest k

/-- Map.set: updates an existing key in place (keeping its position) or
appends a new key at the end, as JS Map does. -/
def mapSet (m : DeptMap) (k : String) (v : List Employee) : DeptMap :=
  match m with
  | [] => [(k, v)]
  | (k', v') :: rest => if k' = k then (k, v) :: rest else (k', v') :: mapSet rest k v

/-- The loop body of groupByDepartment: push employee e onto the list stored
under dept (departmentMap.get(dept) || []; existing.push(employee);
departmentMap.set(dept, existing)). -/
def addToDept (m : DeptMap) (e : Employee) (dept : String) : DeptMap :=
  let existing := (mapGet m dept).getD []
  mapSet m dept (existing ++ [e])

/-- Inner loop of groupByDepartment: an employee is added to every department
they belong to. -/
def insertEmployee (m : DeptMap) (e : Employee) : DeptMap :=
  e.departments.foldl (fun acc d => addToDept acc e d) m

/-- Outer loop of groupByDepartment: build the department map. -/
def buildDeptMap (employees : List Employee) : DeptMap :=
  employees.foldl insertEmployee []

/-- The department sort comparator as a boolean "a sorts no later than b":
the source comparator returns 1 when a === "Other", -1 when b === "Other",
and a.localeCompare(b) otherwise.  deptLeb a b holds iff comparator(a,b) <= 0,
extended reflexively on the pair ("Other", "Other") — a comparison the sort
never performs, since Map keys are distinct — which makes it total and
transitive. -/
def deptLeb (a b : String) : Bool :=
  if a = "Other" then decide (b = "Other")
  else if b = "Other" then true
  else strLe a b

/-- groupByDepartment (company-employees.tsx lines 129-152): group employees
by department, sort department names alphabetically with "Other" last. -/
def groupByDepartment (employees : List Employee) : List DepartmentGroup :=
  let departmentMap := buildDeptMap employees
  let sortedDepts := sortByLe deptLeb (departmentMap.map Prod.fst)
  sortedDepts.map (fun name => { name := name, employees := (mapGet departmentMap name).getD [] })

/-! ## Pagination accumulation (company-employees.tsx, EmployeeListView) -/

/-- The accumulation step of loadMoreEmployees (lines 349-355): dedupe the
newly mapped employees by id against the accumulated list, then append. -/
def accumulateEmployees (employees newMappedEmployees : List Employee) : List Employee :=
  let existingIds := employees.map (fun e => e.id)
  let newEmployees := newMappedEmployees.filter (fun e => !(existingIds.contains e.id))
  employees ++ newEmployees

/-- Pagination metadata of a search response (backend.ts,
SearchPersonResponse.pagination). -/
structure PaginationInfo where
  total_results : Nat
  page : Nat
  total_pages : Nat
deriving Repr, DecidableEq

/-- The component's pagination state (currentPage, totalPages). -/
structure PageState where
  currentPage : Nat
  totalPages : Nat
deriving Repr, DecidableEq

/-- Pagination state after a search response (searchCompany lines 288-289):
setCurrentPage(response.pagination?.page ?? 1);
setTotalPages(response.pagination?.total_pages ?? 0). -/
def searchSetPagination (pagination : Option PaginationInfo) : PageState :=
  { currentPage := (pagination.map (fun p => p.page)).getD 1
    totalPages := (pagination.map (fun p => p.total_pages)).getD 0 }

/-- Pagination state after a load-more response (loadMoreEmployees line 356):
only setCurrentPage(response.pagination?.page ?? currentPage + 1) runs;
totalPages is not written. -/
def loadMoreSetPagination (s : PageState) (pagination : Option PaginationInfo) : PageState :=
  { currentPage := (pagination.map (fun p => p.page)).getD (s.currentPage + 1)
    totalPages := s.totalPages }

/-! ## Lemmas about the department map -/

theorem mapGet_mapSet_self (m : DeptMap) (k : String) (v : List Employee) :
    mapGet (mapSet m k v) k = some v := by
  induction m with
  | nil => simp [mapGet, mapSet]
  | cons p rest ih =>
    obtain ⟨k', v'⟩ := p
    simp only [mapSet]
    by_cases h : k' = k
    · rw [if_pos h]; simp [mapGet]
    · rw [if_neg h]; simp only [mapGet]; rw [if_neg h]; exact ih

theorem mapGet_mapSet_ne (m : DeptMap) {k q : String} (v : List Employee)
    (h : q ≠ k) : mapGet (mapSet m k v) q = mapGet m q := by
  induction m with
  | nil =>
    simp only [mapSet, mapGet]
    rw [if_neg (fun hh => h hh.symm)]
  | cons p rest ih =>
    obtain ⟨k', v'⟩ := p
    simp only [mapSet]
    by_cases hk : k' = k
    · rw [if_pos hk]
      simp only [mapGet]
      rw [if_neg (fun hh => h hh.symm), if_neg (fun hh => h (hk ▸ hh).symm)]
    · rw [if_neg hk]
      simp only [mapGet]
      by_cases hq : k' = q
      · rw [if_pos hq, if_pos hq]
      · rw [if_neg hq, if_neg hq]; exact ih

theorem mem_keys_mapSet (m : DeptMap) (k x : String) (v : List Employee) :
    x ∈ (mapSet m k v).map Prod.fst → x ∈ m.map Prod.fst ∨ x = k := by
  induction m with
  | nil => simp [mapSet]
  | cons p rest ih =>
    obtain ⟨k', v'⟩ := p
    simp only [mapSet]
    by_cases h : k' = k
    · rw [if_pos h]
      simp only [List.map_cons, List.mem_cons]
      rintro (hx | hx)
      · right; exact hx
      · left; right; exact hx
    · rw [if_neg h]
      simp only [List.map_cons, List.mem_cons]
      rintro (hx | hx)
      · left; left; exact hx
      · rcases ih hx with h' | h'
        · left; right; exact h'
        · right; exact h'

theorem nodup_keys_mapSet (m : DeptMap) (k : String) (v : List Employee)
    (h : (m.map Prod.fst).Nodup) : ((mapSet m k v).map Prod.fst).Nodup := by
  induction m with
  | nil => simp [mapSet]
  | cons p rest ih =>
    obtain ⟨k', v'⟩ := p
    simp only [List.map_cons, List.nodup_cons] at h
    obtain ⟨hk', hrest⟩ := h
    simp only [mapSet]
    by_cases hkk : k' = k
    · rw [if_pos hkk]
      simp only [List.map_cons, List.nodup_cons]
      exact ⟨hkk ▸ hk', hrest⟩
    · rw [if_neg hkk]
      simp only [List.map_cons, List.nodup_cons]
      refine ⟨fun hx => ?_, ih hrest⟩
      rcases mem_keys_mapSet rest k k' v hx with h' | h'
      · exact hk' h'
      · exact hkk h'

theorem mem_keys_of_mapGet {m : DeptMap} {k : String} {xs : List Employee}
    (h : mapGet m k = some xs) : k ∈ m.map Prod.fst := by
  induction m with
  | nil => simp [mapGet] at h
  | cons p rest ih =>
    obtain ⟨k', v'⟩ := p
    simp only [mapGet] at h
    simp only [List.map_cons, List.mem_cons]
    by_cases hk : k' = k
    · left; exact hk.symm
    · rw [if_neg hk] at h
      right; exact ih h

theorem mapGet_addToDept_self (m : DeptMap) (e : Employee) (d : String) :
    e ∈ (mapGet (addToDept m e d) d).getD [] := by
  simp only [addToDept]
  rw [mapGet_mapSet_self]
  simp

theorem mem_addToDept_mono (m : DeptMap) (e e' : Employee) (d d' : String)
    (h : e' ∈ (mapGet m d').getD []) :
    e' ∈ (mapGet (addToDept m e d) d').getD [] := by
  simp only [addToDept]
  by_cases hd : d' = d
  · subst hd
    rw [mapGet_mapSet_self]
    simp only [Option.getD_some, List.mem_append]
    left; exact h
  · rw [mapGet_mapSet_ne m _ hd]
    exact h

theorem mem_foldl_addToDept_mono (depts : List String) (m : DeptMap)
    (e e' : Employee) (d' : String) (h : e' ∈ (mapGet m d').getD []) :
    e' ∈ (mapGet (depts.foldl (fun acc d => addToDept acc e d) m) d').getD [] := by
  induction depts generalizing m with
  | nil => exact h
  | cons d rest ih =>
    simp only [List.foldl_cons]
    exact ih (addToDept m e d) (mem_addToDept_mono m e e' d d' h)

theorem mem_foldl_addToDept_self (depts : List String) (m : DeptMap)
    (e : Employee) (d : String) (hd : d ∈ depts) :
    e ∈ (mapGet (depts.foldl (fun acc dd => addToDept acc e dd) m) d).getD [] := by
  induction depts generalizing m with
  | nil => simp at hd
  | cons d0 rest ih =>
    simp only [List.foldl_cons]
    rcases List.mem_cons.mp hd with h | h
    · subst h
      exact mem_foldl_addToDept_mono rest (addToDept m e d) e e d
        (mapGet_addToDept_self m e d)
    · exact ih (addToDept m e d0) h

theorem mem_insertEmployee_mono (m : DeptMap) (e e' : Employee) (d' : String)
    (h : e' ∈ (mapGet m d').getD []) :
    e' ∈ (mapGet (insertEmployee m e) d').getD [] :=
  mem_foldl_addToDept_mono e.departments m e e' d' h

theorem mem_foldl_insertEmployee_mono (es : List Employee) (m : DeptMap)
    (e' : Employee) (d' : String) (h : e' ∈ (mapGet m d').getD []) :
    e' ∈ (mapGet (es.foldl insertEmployee m) d').getD [] := by
  induction es generalizing m with
  | nil => exact h
  | cons e rest ih =>
    simp only [List.foldl_cons]
    exact ih (insertEmployee m e) (mem_insertEmployee_mono m e e' d' h)

theorem mem_buildDeptMap_aux (es : List Employee) (m : DeptMap)
    (e : Employee) (d : String) (he : e ∈ es) (hd : d ∈ e.departments) :
    e ∈ (mapGet (es.foldl insertEmployee m) d).getD [] := by
  induction es generalizing m with
  | nil => simp at he
  | cons e0 rest ih =>
    simp only [List.foldl_cons]
    rcases List.mem_cons.mp he with h | h
    · subst h
      exact mem_foldl_insertEmployee_mono rest (insertEmployee m e) e d
        (mem_foldl_addToDept_self e.departments m e d hd)
    · exact ih (insertEmployee m e0) h

/-- Every employee ends up in the department-map bucket of each of their
departments. -/
theorem mem_buildDeptMap (es : List Employee) (e : Employee) (d : String)
    (he : e ∈ es) (hd : d ∈ e.departments) :
    e ∈ (mapGet (buildDeptMap es) d).getD [] :=
  mem_buildDeptMap_aux es [] e d he hd

theorem nodup_keys_addToDept (m : DeptMap) (e : Employee) (d : String)
    (h : (m.map Prod.fst).Nodup) : ((addToDept m e d).map Prod.fst).Nodup :=
  nodup_keys_mapSet m d _ h

theorem nodup_keys_foldl_addToDept (depts : List String) (m : DeptMap)
    (e : Employee) (h : (m.map Prod.fst).Nodup) :
    (((depts.foldl (fun acc d => addToDept acc e d) m)).map Prod.fst).Nodup := by
  induction depts generalizing m with
  | nil => exact h
  | cons d rest ih =>
    simp only [List.foldl_cons]
    exact ih (addToDept m e d) (nodup_keys_addToDept m e d h)

theorem nodup_keys_buildDeptMap (es : List Employee) :
    ((buildDeptMap es).map Prod.fst).Nodup := by
  have aux : ∀ (l : List Employee) (m : DeptMap), (m.map Prod.fst).Nodup →
      ((l.foldl insertEmployee m).map Prod.fst).Nodup := by
    intro l
    induction l with
    | nil => intro m h; exact h
    | cons e rest ih =>
      intro m h
      simp only [List.foldl_cons]
      exact ih (insertEmployee m e) (nodup_keys_foldl_addToDept e.departments m e h)
  exact aux es [] (by simp)

/-! ## Lemmas about the department comparator -/

theorem deptLeb_total (a b : String) : deptLeb a b = true ∨ deptLeb b a = true := by
  simp only [deptLeb]
  by_cases ha : a = "Other"
  · by_cases hb : b = "Other"
    · left; rw [if_pos ha]; exact decide_eq_true hb
    · right; rw [if_neg hb, if_pos ha]
  · by_cases hb : b = "Other"
    · left; rw [if_neg ha, if_pos hb]
    · rw [if_neg ha, if_neg hb, if_neg hb, if_neg ha]
      exact strLe_total a b

theorem deptLeb_trans (a b c : String) :
    deptLeb a b = true → deptLeb b c = true → deptLeb a c = true := by
  intro h1 h2
  simp only [deptLeb] at h1 h2 ⊢
  by_cases ha : a = "Other"
  · rw [if_pos ha] at h1 ⊢
    have hb : b = "Other" := of_decide_eq_true h1
    rw [if_pos hb] at h2
    exact h2
  · rw [if_neg ha] at h1 ⊢
    by_cases hc : c = "Other"
    · rw [if_pos hc]
    · rw [if_neg hc]
      by_cases hb : b = "Other"
      · rw [if_pos hb] at h2
        exact absurd (of_decide_eq_true h2) hc
      · rw [if_neg hb] at h1
        rw [if_neg hb, if_neg hc] at h2
        exact strLe_trans a b c h1 h2

theorem map_name_mk (f : String → List Employee) (l : List String) :
    (l.map (fun name => ({ name := name, employees := f name } : DepartmentGroup))).map
      (fun g => g.name) = l := by
  induction l with
  | nil => rfl
  | cons x xs ih => simp only [List.map_cons, ih]

theorem groupByDepartment_names (es : List Employee) :
    (groupByDepartment es).map (fun g => g.name)
      = sortByLe deptLeb ((buildDeptMap es).map Prod.fst) := by
  simp only [groupByDepartment]
  exact map_name_mk _ _

/-! ## JS falsy-fallback helpers -/

/-- JS (s || d) on an optional string: the empty string is falsy. -/
def strOr (o : Option String) (d : String) : String :=
  match o with
  | none => d
  | some s => if s = "" then d else s

/-- JS (s || null) on an optional string: maps "" and absence to null. -/
def strOrNone (o : Option String) : Option String :=
  match o with
  | none => none
  | some s => if s = "" then none else some s

/-- JS (n || d) on an optional number: 0 is falsy. -/
def intOr (o : Option Int) (d : Int) : Int :=
  match o with
  | none => d
  | some n => if n = 0 then d else n

/-! ## Backend response types (backend.ts) -/

/-- A location inside a search result person. -/
structure SearchLocation where
  country : String
  city : String
deriving Repr, DecidableEq

/-- interface SearchPersonJob. -/
structure SearchPersonJob where
  title : String
  company_name : String
  current : Bool
  seniority : Option String := none
  departments : Option (List String) := none
deriving Repr, DecidableEq

/-- interface SearchPersonResult. -/
structure SearchPersonResult where
  person_id : String
  first_name : String
  last_name : String
  full_name : String
  headline : Option String := none
  linkedin_url : Option String := none
  current_job_title : Option String := none
  job_history : Option (List SearchPersonJob) := none
  location : Option SearchLocation := none
deriving Repr, DecidableEq

/-- interface SearchPersonResponse.  results holds the matched people;
the error / error_code / message fields form the error envelope. -/
structure SearchPersonResponse where
  error : Option Bool := none
  error_code : Option String := none
  message : Option String := none
  balance : Int
  results : Option (List SearchPersonResult) := none
  pagination : Option PaginationInfo := none
deriving Repr, DecidableEq

/-- interface JobHistory (backend.ts / email-finder command file). -/
structure JobHistory where
  title : String
  company_name : String
  current : Bool
  start_year : Int
  start_month : Int
  end_year : Option Int := none
  end_month : Option Int := none
  seniority : String
  logo_url : Option String := none
  duration_in_months : Option Int := none
  departments : Option (List String) := none
deriving Repr, DecidableEq

/-- Mobile block of the enrich response person. -/
structure RespMobile where
  status : String
  mobile_international : Option String := none
  mobile_country : Option String := none
deriving Repr, DecidableEq

/-- Email block of the enrich response person. -/
structure RespEmail where
  status : String
  email : String
  email_mx_provider : Option String := none
deriving Repr, DecidableEq

/-- interface PersonLocation. -/
structure PersonLocation where
  country : String
  city : String
  state : Option String := none
  country_code : Option String := none
deriving Repr, DecidableEq

/-- person block of EnrichPersonResponse. -/
structure RespPerson where
  first_name : String
  last_name : String
  full_name : String
  headline : Option String := none
  linkedin_url : Option String := none
  current_job_title : Option String := none
  job_history : Option (List JobHistory) := none
  mobile : Option RespMobile := none
  email : Option RespEmail := none
  location : Option PersonLocation := none
deriving Repr, DecidableEq

/-- Company location block. -/
structure CompanyLocation where
  country : String
  city : String
  raw_address : Option String := none
deriving Repr, DecidableEq

/-- interface FundingEvent. -/
structure FundingEvent where
  amount : Int
  amount_printed : String
  raised_at : String
  stage : String
  link : String
deriving Repr, DecidableEq

/-- interface Funding. -/
structure Funding where
  total_funding_printed : String
  latest_funding_stage : String
  latest_funding_date : String
  funding_events : Option (List FundingEvent) := none
deriving Repr, DecidableEq

/-- company block of EnrichPersonResponse; every field optional upstream. -/
structure RespCompany where
  name : Option String := none
  website : Option String := none
  domain : Option String := none
  type : Option String := none
  industry : Option String := none
  description_ai : Option String := none
  employee_range : Option String := none
  employee_count : Option Int := none
  founded : Option Int := none
  linkedin_url : Option String := none
  twitter_url : Option String := none
  logo_url : Option String := none
  location : Option CompanyLocation := none
  revenue_range_printed : Option String := none
  funding : Option Funding := none
  keywords : Option (List String) := none
deriving Repr, DecidableEq

/-- interface EnrichPersonResponse. -/
structure EnrichPersonResponse where
  error : Option Bool := none
  error_code : Option String := none
  message : Option String := none
  balance : Int
  person : Option RespPerson := none
  company : Option RespCompany := none
deriving Repr, DecidableEq

/-- isInsufficientCreditsError(data): data is an object carrying an
error_code field equal to "INSUFFICIENT_CREDITS".  The embedding receives
the error_code field of the parsed body. -/
def isInsufficientCreditsCode (error_code : Option String) : Bool :=
  decide (error_code = some "INSUFFICIENT_CREDITS")

/-- fetch Response.ok: status in the inclusive range 200-299. -/
def responseOk (status : Nat) : Bool :=
  decide (200 ≤ status ∧ status < 300)

/-- The response-handling tail of searchPerson (backend.ts lines 262-274):
402 + INSUFFICIENT_CREDITS throws the balance-bearing message, any other
non-ok or error-flagged body throws data.message || "Failed to search
people", otherwise the body is returned. -/
def handleSearchPersonResponse (status : Nat) (data : SearchPersonResponse) :
    Except String SearchPersonResponse :=
  if status = 402 ∧ isInsufficientCreditsCode data.error_code then
    Except.error ("Insufficient credits. You have " ++ toString data.balance ++
      " credits remaining.")
  else if responseOk status = false ∨ data.error = some true then
    Except.error (strOr data.message "Failed to search people")
  else
    Except.ok data

/-- The response-handling tail of enrichPerson (backend.ts lines 183-195),
identical shape with the enrich fallback message. -/
def handleEnrichPersonResponse (status : Nat) (data : EnrichPersonResponse) :
    Except String EnrichPersonResponse :=
  if status = 402 ∧ isInsufficientCreditsCode data.error_code then
    Except.error ("Insufficient credits. You have " ++ toString data.balance ++
      " credits remaining.")
  else if responseOk status = false ∨ data.error = some true then
    Except.error (strOr data.message "Failed to enrich person")
  else
    Except.ok data

/-! ## Enriched data (email-finder command file) and the enrich mapper -/

/-- PersonData.mobile. -/
structure MobileData where
  status : String
  mobile_international : Option String
  mobile_country : Option String := none
deriving Repr, DecidableEq

/-- PersonData.email. -/
structure EmailData where
  status : String
  email : String
  email_mx_provider : Option String := none
deriving Repr, DecidableEq

/-- interface PersonData. -/
structure PersonData where
  first_name : String
  last_name : String
  full_name : String
  headline : Option String
  linkedin_url : Option String
  job_history : List JobHistory
  mobile : Option MobileData
  email : EmailData
  location : Option PersonLocation
  current_job_title : Option String := none
deriving Repr, DecidableEq

/-- interface CompanyData. -/
structure CompanyData where
  name : String
  website : String
  domain : String
  type : Option String
  industry : String
  description_ai : Option String
  employee_range : String
  founded : Int
  linkedin_url : Option String
  twitter_url : Option String
  logo_url : Option String
  location : Option CompanyLocation
  revenue_range_printed : Option String
  funding : Option Funding
  employee_count : Option Int := none
  keywords : Option (List String) := none
deriving Repr, DecidableEq

/-- interface EnrichedData. -/
structure EnrichedData where
  person : PersonData
  company : CompanyData
deriving Repr, DecidableEq

/-- mapEnrichResponseToData (company-employees.tsx lines 61-126); the
email-finder command file's mapResponseToEnrichedData is line-for-line the
same mapping.  Returns none exactly when !response.person?.email?.email,
i.e. when the person, the email block, or a non-empty email string is
missing. -/
def mapEnrichResponseToData (response : EnrichPersonResponse) (domain : String) :
    Option EnrichedData :=
  match response.person with
  | none => none
  | some p =>
    match p.email with
    | none => none
    | some em =>
      if em.email = "" then none
      else
        some {
          person := {
            first_name := p.first_name
            last_name := p.last_name
            full_name := p.full_name
            headline := strOrNone p.headline
            linkedin_url := strOrNone p.linkedin_url
            current_job_title := strOrNone p.current_job_title
            job_history := p.job_history.getD []
            mobile := p.mobile.map (fun m =>
              { status := m.status
                mobile_international := strOrNone m.mobile_international
                mobile_country := m.mobile_country })
            email := {
              status := em.status
              email := em.email
              email_mx_provider := em.email_mx_provider }
            location := p.location.map (fun l =>
              { country := l.country
                city := l.city
                state := l.state
                country_code := l.country_code }) }
          company := {
            name := strOr (response.company.bind (fun c => c.name)) domain
            website := strOr (response.company.bind (fun c => c.website)) ("https://" ++ domain)
            domain := strOr (response.company.bind (fun c => c.domain)) domain
            type := strOrNone (response.company.bind (fun c => c.type))
            industry := strOr (response.company.bind (fun c => c.industry)) ""
            description_ai := strOrNone (response.company.bind (fun c => c.description_ai))
            employee_range := strOr (response.company.bind (fun c => c.employee_range)) ""
            employee_count := response.company.bind (fun c => c.employee_count)
            founded := intOr (response.company.bind (fun c => c.founded)) 0
            linkedin_url := strOrNone (response.company.bind (fun c => c.linkedin_url))
            twitter_url := strOrNone (response.company.bind (fun c => c.twitter_url))
            logo_url := strOrNone (response.company.bind (fun c => c.logo_url))
            location := (response.company.bind (fun c => c.location)).map (fun l =>
              { country := l.country
                city := l.city
                raw_address := l.raw_address })
            revenue_range_printed := strOrNone (response.company.bind (fun c => c.revenue_range_printed))
            funding := (response.company.bind (fun c => c.funding)).map (fun f =>
              { total_funding_printed := f.total_funding_printed
                latest_funding_stage := f.latest_funding_stage
                latest_funding_date := f.latest_funding_date
                funding_events := f.funding_events })
            keywords := response.company.bind (fun c => c.keywords) } }

/-! ## History storage (history-storage.ts) -/

/-- interface CachedEmployee. -/
structure CachedEmployee where
  id : String
  firstName : String
  lastName : String
  fullName : String
  jobTitle : String
  departments : List String
  linkedinUrl : Option String := none
  location : Option String := none
  seniority : Option String := none
deriving Repr, DecidableEq

/-- interface SearchHistoryEntry.  type is the literal "email" in the TS
type; in the stored JSON legacy entries may lack it, hence Option here.
createdAt is the epoch-millisecond value of the ISO timestamp. -/
structure SearchHistoryEntry where
  id : String
  type : Option String := none
  firstName : String
  lastName : String
  domain : String
  createdAt : Nat
  status : String
  email : Option String := none
  error : Option String := none
  enrichedData : Option EnrichedData := none
deriving Repr, DecidableEq

/-- interface CompanySearchHistoryEntry. -/
structure CompanySearchHistoryEntry where
  id : String
  type : Option String := none
  companyName : String
  domain : String
  confidenceScore : Int
  logoUrl : Option String := none
  createdAt : Nat
  employees : Option (List CachedEmployee) := none
  totalPages : Option Nat := none
  currentPage : Option Nat := none
deriving Repr, DecidableEq

/-- const MAX_ENTRIES = 100. -/
def MAX_ENTRIES : Nat := 100

/-- addSearchHistoryEntry (history-storage.ts lines 73-87), with the effects
made explicit: entries is the currently stored log, newId the generated id,
now the creation time.  Returns the finalized entry and the updated log
([newEntry, ...entries].slice(0, MAX_ENTRIES)). -/
def addSearchHistoryEntry (entries : List SearchHistoryEntry)
    (entry : SearchHistoryEntry) (newId : String) (now : Nat) :
    SearchHistoryEntry × List SearchHistoryEntry :=
  let newEntry := { entry with type := some "email", id := newId, createdAt := now }
  (newEntry, (newEntry :: entries).take MAX_ENTRIES)

/-- addCompanySearchHistoryEntry (history-storage.ts lines 122-136). -/
def addCompanySearchHistoryEntry (entries : List CompanySearchHistoryEntry)
    (entry : CompanySearchHistoryEntry) (newId : String) (now : Nat) :
    CompanySearchHistoryEntry × List CompanySearchHistoryEntry :=
  let newEntry := { entry with type := some "company", id := newId, createdAt := now }
  (newEntry, (newEntry :: entries).take MAX_ENTRIES)

/-- The merged history entry (type HistoryEntry = SearchHistoryEntry |
CompanySearchHistoryEntry). -/
inductive HistoryEntry where
  | email (e : SearchHistoryEntry)
  | company (e : CompanySearchHistoryEntry)
deriving Repr, DecidableEq

/-- createdAt of either entry kind. -/
def HistoryEntry.createdAt : HistoryEntry → Nat
  | .email e => e.createdAt
  | .company e => e.createdAt

/-- The loadAllHistory sort comparator (b.createdAt - a.createdAt <= 0),
i.e. newest first. -/
def histLeb (a b : HistoryEntry) : Bool :=
  decide (b.createdAt ≤ a.createdAt)

/-- loadAllHistory (history-storage.ts lines 161-172): tag every stored
email entry with type "email" (also the untyped legacy ones), merge with the
company log, and sort by createdAt descending. -/
def loadAllHistory (emailEntries : List SearchHistoryEntry)
    (companyEntries : List CompanySearchHistoryEntry) : List HistoryEntry :=
  let typedEmailEntries := emailEntries.map (fun e => { e with type := some "email" })
  let combined := typedEmailEntries.map HistoryEntry.email
    ++ companyEntries.map HistoryEntry.company
  sortByLe histLeb combined

/-! ## Further order lemmas -/

theorem deptLeb_other_left {y : String} (h : deptLeb "Other" y = true) :
    y = "Other" := by
  simp only [deptLeb, if_pos rfl] at h
  exact of_decide_eq_true h

/-- In a duplicate-free list sorted by the department comparator, "Other"
can only sit at the end. -/
theorem other_last {l : List String}
    (hp : l.Pairwise (fun a b => deptLeb a b = true)) (hn : l.Nodup)
    (h : "Other" ∈ l) : l.getLast? = some "Other" := by
  induction l with
  | nil => simp at h
  | cons x xs ih =>
    rw [List.pairwise_cons] at hp
    rw [List.nodup_cons] at hn
    rcases List.mem_cons.mp h with hx | hx
    · subst hx
      cases xs with
      | nil => rfl
      | cons y ys =>
        have hy : y = "Other" := deptLeb_other_left (hp.1 y (by simp))
        subst hy
        exact absurd (List.mem_cons_self _ _) hn.1
    · have htail := ih hp.2 hn.2 hx
      cases xs with
      | nil => simp at hx
      | cons y ys => rw [List.getLast?_cons_cons]; exact htail

theorem histLeb_total (a b : HistoryEntry) :
    histLeb a b = true ∨ histLeb b a = true := by
  simp only [histLeb, decide_eq_true_eq]
  omega

theorem histLeb_trans (a b c : HistoryEntry) :
    histLeb a b = true → histLeb b c = true → histLeb a c = true := by
  simp only [histLeb, decide_eq_true_eq]
  omega

/-! ## Concrete example values -/

/-- Page-1 employee a. -/
def empA : Employee :=
  { id := "a", firstName := "Ann", lastName := "Ast", fullName := "Ann Ast",
    jobTitle := "CEO", departments := ["Other"] }

/-- Page-1 employee b. -/
def empB : Employee :=
  { id := "b", firstName := "Bo", lastName := "Berg", fullName := "Bo Berg",
    jobTitle := "CTO", departments := ["Engineering"] }

/-- Page-2 duplicate of b: same id, as served again by the backend. -/
def empB2 : Employee :=
  { id := "b", firstName := "Bo", lastName := "Berg", fullName := "Bo Berg",
    jobTitle := "CTO", departments := ["Engineering"], seniority := some "executive" }

/-- Page-2 employee c. -/
def empC : Employee :=
  { id := "c", firstName := "Cy", lastName := "Chen", fullName := "Cy Chen",
    jobTitle := "Dev", departments := ["Engineering"] }

/-- Employee whose current job lists two departments. -/
def empSM : Employee :=
  { id := "sm", firstName := "Sam", lastName := "Moor", fullName := "Sam Moor",
    jobTitle := "Lead", departments := ["Sales", "Marketing"] }

/-- Employees whose departments arrive in the order Other, Zeta, Alpha. -/
def deptExampleEmployees : List Employee :=
  [ { id := "1", firstName := "O", lastName := "O", fullName := "O O",
      jobTitle := "", departments := ["Other"] },
    { id := "2", firstName := "Z", lastName := "Z", fullName := "Z Z",
      jobTitle := "", departments := ["Zeta"] },
    { id := "3", firstName := "A", lastName := "A", fullName := "A A",
      jobTitle := "", departments := ["Alpha"] } ]

/-- A base email history entry. -/
def seBase : SearchHistoryEntry :=
  { id := "old", type := some "email", firstName := "F", lastName := "L",
    domain := "d.com", createdAt := 1, status := "success",
    email := some "f@d.com" }

/-- A base company history entry. -/
def ceBase : CompanySearchHistoryEntry :=
  { id := "oldc", type := some "company", companyName := "D", domain := "d.com",
    confidenceScore := 90, createdAt := 1 }

/-- A legacy untyped email entry created at t = 10. -/
def em10 : SearchHistoryEntry :=
  { id := "e10", type := none, firstName := "F", lastName := "L",
    domain := "d.com", createdAt := 10, status := "error",
    error := some "No email found for this person" }

/-- A company entry created at t = 20. -/
def co20 : CompanySearchHistoryEntry :=
  { id := "c20", type := some "company", companyName := "D", domain := "d.com",
    confidenceScore := 95, createdAt := 20 }

/-- An enrich response that is populated everywhere except the email block. -/
def respNoEmail : EnrichPersonResponse :=
  { balance := 42
    person := some
      { first_name := "John", last_name := "Doe", full_name := "John Doe",
        headline := some "Builder", linkedin_url := some "https://linkedin.com/in/jd",
        current_job_title := some "Engineer",
        mobile := some { status := "found", mobile_international := some "+4670",
                         mobile_country := some "SE" },
        email := none,
        location := some { country := "Sweden", city := "Stockholm" } }
    company := some { name := some "Acme", website := some "https://acme.io" } }

/-- A person block whose email block exists with an empty email string. -/
def respEmptyEmailPerson : RespPerson :=
  { first_name := "John", last_name := "Doe", full_name := "John Doe",
    headline := some "Builder",
    email := some { status := "not_found", email := "" },
    location := some { country := "Sweden", city := "Stockholm" } }

/-- An enrich response whose email block exists with an empty email string. -/
def respEmptyEmail : EnrichPersonResponse :=
  { balance := 42
    person := some respEmptyEmailPerson
    company := some { name := some "Acme" } }

/-- An enrich response for acme.com with an email but no company object. -/
def respAcme : EnrichPersonResponse :=
  { balance := 42
    person := some
      { first_name := "John", last_name := "Doe", full_name := "John Doe",
        email := some { status := "verified", email := "john@acme.com" } }
    company := none }

/-- An insufficient-credits search response body with balance 3. -/
def searchBody3 : SearchPersonResponse :=
  { error := some true, error_code := some "INSUFFICIENT_CREDITS",
    message := some "Insufficient credits", balance := 3 }

/-- An insufficient-credits enrich response body with balance 3. -/
def enrichBody3 : EnrichPersonResponse :=
  { error := some true, error_code := some "INSUFFICIENT_CREDITS",
    message := some "Insufficient credits", balance := 3 }

/-! ## Claim theorems -/

/-- C1: the load-more accumulation appends only those newly fetched
employees whose id is not already present, preserving the pre-existing
order unchanged (no re-sorting) and appending the id-deduplicated new
employees at the end in their fetched order; accumulating page-1 employees
a, b with page-2 employees b, c yields exactly a, b, c in that order. -/
theorem loadMore_dedupe_append :
    (∀ (old nw : List Employee),
      (accumulateEmployees old nw).take old.length = old ∧
      (accumulateEmployees old nw).drop old.length
        = nw.filter (fun e => !((old.map (fun x => x.id)).contains e.id)) ∧
      (∀ e, e ∈ (accumulateEmployees old nw).drop old.length ↔
        e ∈ nw ∧ ∀ e2 ∈ old, e2.id ≠ e.id)) ∧
    accumulateEmployees [empA, empB] [empB2, empC] = [empA, empB, empC] := by
  constructor
  · intro old nw
    refine ⟨?_, ?_, ?_⟩
    · simp only [accumulateEmployees]
      exact List.take_left old _
    · simp only [accumulateEmployees]
      exact List.drop_left old _
    · intro e
      simp only [accumulateEmployees, List.drop_left]
      simp [List.mem_filter]
  · decide

/-- C1 witness: page-2 employee c, whose id is new, ends up in the appended
tail of the accumulation of pages [a, b] and [b, c]. -/
theorem loadMore_dedupe_append_witness :
    empC ∈ (accumulateEmployees [empA, empB] [empB2, empC]).drop 2 := by
  have h := loadMore_dedupe_append.1 [empA, empB] [empB2, empC]
  exact (h.2.2 empC).mpr ⟨by decide, by decide⟩

/-- C3 counterexample: a load-more response carrying pagination metadata
with total_pages = 3 does not overwrite a previously held total-pages state
of 5 — the claim's "overwrites the previously held ... total-pages state"
fails on loadMoreEmployees. -/
theorem loadMore_totalPages_not_overwritten :
    (loadMoreSetPagination { currentPage := 1, totalPages := 5 }
      (some { total_results := 50, page := 2, total_pages := 3 })).totalPages ≠ 3 := by
  decide

/-- C3 amended: after a search response, page and total_pages overwrite the
state, defaulting to page 1 and total pages 0 when the response carries no
pagination metadata; after a load-more response only the current page is
overwritten, defaulting to the previous page plus one when metadata is
absent, and the total-pages state is left unchanged. -/
theorem pagination_state_update :
    (∀ p : PaginationInfo,
      searchSetPagination (some p)
        = { currentPage := p.page, totalPages := p.total_pages }) ∧
    searchSetPagination none = { currentPage := 1, totalPages := 0 } ∧
    (∀ (s : PageState) (p : PaginationInfo),
      loadMoreSetPagination s (some p)
        = { currentPage := p.page, totalPages := s.totalPages }) ∧
    (∀ s : PageState,
      loadMoreSetPagination s none
        = { currentPage := s.currentPage + 1, totalPages := s.totalPages }) :=
  ⟨fun _ => rfl, rfl, fun _ _ => rfl, fun _ => rfl⟩

/-- C4: on either history log, add assigns the generated id and the
creation timestamp to the new entry, prepends it and truncates to the
most-recent 100 entries; the log length never exceeds 100, and adding to a
log of exactly 100 entries evicts exactly the oldest (last) entry; the
finalized entry is returned. -/
theorem addHistoryEntry_bounded :
    ∀ (emailLog : List SearchHistoryEntry) (e : SearchHistoryEntry)
      (companyLog : List CompanySearchHistoryEntry) (c : CompanySearchHistoryEntry)
      (newId : String) (now : Nat),
      ((addSearchHistoryEntry emailLog e newId now).1
          = { e with type := some "email", id := newId, createdAt := now } ∧
        (addSearchHistoryEntry emailLog e newId now).2
          = ((addSearchHistoryEntry emailLog e newId now).1 :: emailLog).take 100 ∧
        (addSearchHistoryEntry emailLog e newId now).2.length ≤ 100 ∧
        (emailLog.length = 100 →
          (addSearchHistoryEntry emailLog e newId now).2
            = (addSearchHistoryEntry emailLog e newId now).1 :: emailLog.dropLast)) ∧
      ((addCompanySearchHistoryEntry companyLog c newId now).1
          = { c with type := some "company", id := newId, createdAt := now } ∧
        (addCompanySearchHistoryEntry companyLog c newId now).2
          = ((addCompanySearchHistoryEntry companyLog c newId now).1 :: companyLog).take 100 ∧
        (addCompanySearchHistoryEntry companyLog c newId now).2.length ≤ 100 ∧
        (companyLog.length = 100 →
          (addCompanySearchHistoryEntry companyLog c newId now).2
            = (addCompanySearchHistoryEntry companyLog c newId now).1 :: companyLog.dropLast)) := by
  intro emailLog e companyLog c newId now
  have h100 : (100 : Nat) = 99 + 1 := rfl
  constructor
  · refine ⟨rfl, rfl, ?_, ?_⟩
    · simp only [addSearchHistoryEntry, MAX_ENTRIES, List.length_take]
      omega
    · intro hlen
      simp only [addSearchHistoryEntry, MAX_ENTRIES]
      rw [h100, List.take_succ_cons, List.dropLast_eq_take, hlen]
  · refine ⟨rfl, rfl, ?_, ?_⟩
    · simp only [addCompanySearchHistoryEntry, MAX_ENTRIES, List.length_take]
      omega
    · intro hlen
      simp only [addCompanySearchHistoryEntry, MAX_ENTRIES]
      rw [h100, List.take_succ_cons, List.dropLast_eq_take, hlen]

/-- C4 witness: adding a 101st entry to either log of exactly 100 entries
evicts exactly the oldest entry. -/
theorem addHistoryEntry_bounded_witness :
    (addSearchHistoryEntry (List.replicate 100 seBase) seBase "new" 7).2
        = (addSearchHistoryEntry (List.replicate 100 seBase) seBase "new" 7).1
            :: (List.replicate 100 seBase).dropLast ∧
    (addCompanySearchHistoryEntry (List.replicate 100 ceBase) ceBase "new" 7).2
        = (addCompanySearchHistoryEntry (List.replicate 100 ceBase) ceBase "new" 7).1
            :: (List.replicate 100 ceBase).dropLast := by
  have h := addHistoryEntry_bounded (List.replicate 100 seBase) seBase
    (List.replicate 100 ceBase) ceBase "new" 7
  exact ⟨h.1.2.2.2 (by simp), h.2.2.2.2 (by simp)⟩

/-- C5: an enrich response whose person.email.email chain is absent maps to
none (the "no data" signal), regardless of which other fields are
populated. -/
theorem mapEnrich_none_of_no_email :
    ∀ (r : EnrichPersonResponse) (domain : String),
      r.person.bind (fun p => p.email) = none →
      mapEnrichResponseToData r domain = none := by
  intro r domain h
  cases hp : r.person with
  | none => simp [mapEnrichResponseToData, hp]
  | some p =>
    rw [hp, Option.some_bind] at h
    simp [mapEnrichResponseToData, hp, h]

/-- C5 witness: a response populated everywhere (person, mobile, location,
company) except the email block maps to none. -/
theorem mapEnrich_none_of_no_email_witness :
    mapEnrichResponseToData respNoEmail "acme.com" = none :=
  mapEnrich_none_of_no_email respNoEmail "acme.com" rfl

/-- C10: an enrich response whose person.email block exists but whose email
string is empty maps to none, the same "no data" signal as a wholly absent
email. -/
theorem mapEnrich_none_of_empty_email :
    ∀ (r : EnrichPersonResponse) (domain : String) (p : RespPerson) (em : RespEmail),
      r.person = some p → p.email = some em → em.email = "" →
      mapEnrichResponseToData r domain = none := by
  intro r domain p em hp hem he
  simp [mapEnrichResponseToData, hp, hem, he]

/-- C10 witness: a response whose email block carries status "not_found"
and an empty email string maps to none. -/
theorem mapEnrich_none_of_empty_email_witness :
    mapEnrichResponseToData respEmptyEmail "acme.com" = none :=
  mapEnrich_none_of_empty_email respEmptyEmail "acme.com"
    respEmptyEmailPerson { status := "not_found", email := "" } rfl rfl rfl

/-- C2: the department groups are sorted by name ascending (the comparator
order, case-sensitive), with the literal group "Other" always placed last;
groups arriving as Other, Zeta, Alpha come out as Alpha, Zeta, Other. -/
theorem groupByDepartment_sorted_other_last :
    (∀ es : List Employee,
      ((groupByDepartment es).map (fun g => g.name)).Pairwise
        (fun a b => deptLeb a b = true) ∧
      ((groupByDepartment es).map (fun g => g.name)).Nodup ∧
      ("Other" ∈ (groupByDepartment es).map (fun g => g.name) →
        ((groupByDepartment es).map (fun g => g.name)).getLast? = some "Other")) ∧
    (groupByDepartment deptExampleEmployees).map (fun g => g.name)
      = ["Alpha", "Zeta", "Other"] := by
  constructor
  · intro es
    have hnames := groupByDepartment_names es
    have hp : ((groupByDepartment es).map (fun g => g.name)).Pairwise
        (fun a b => deptLeb a b = true) := by
      rw [hnames]
      exact pairwise_sortByLe deptLeb_total deptLeb_trans _
    have hn : ((groupByDepartment es).map (fun g => g.name)).Nodup := by
      rw [hnames]
      exact ((sortByLe_perm _ _).nodup_iff).mpr (nodup_keys_buildDeptMap es)
    exact ⟨hp, hn, fun h => other_last hp hn h⟩
  · decide

/-- C2 witness: for the Other/Zeta/Alpha example the group "Other" is
present and sorted to the last position. -/
theorem groupByDepartment_sorted_other_last_witness :
    ((groupByDepartment deptExampleEmployees).map (fun g => g.name)).getLast?
      = some "Other" :=
  (groupByDepartment_sorted_other_last.1 deptExampleEmployees).2.2 (by decide)

/-- C6: whenever the enrich mapper yields data, the company fields fall
back to domain-derived values when the upstream company data omits them:
name to the input domain, website to "https://" ++ domain, domain to the
input domain. -/
theorem mapEnrich_company_fallbacks :
    ∀ (r : EnrichPersonResponse) (domain : String) (data : EnrichedData),
      mapEnrichResponseToData r domain = some data →
      (r.company.bind (fun c => c.name) = none → data.company.name = domain) ∧
      (r.company.bind (fun c => c.website) = none →
        data.company.website = "https://" ++ domain) ∧
      (r.company.bind (fun c => c.domain) = none → data.company.domain = domain) := by
  intro r domain data h
  cases hp : r.person with
  | none => simp [mapEnrichResponseToData, hp] at h
  | some p =>
    cases hem : p.email with
    | none => simp [mapEnrichResponseToData, hp, hem] at h
    | some em =>
      by_cases he : em.email = ""
      · simp [mapEnrichResponseToData, hp, hem, he] at h
      · simp only [mapEnrichResponseToData, hp, hem, if_neg he,
          Option.some.injEq] at h
        subst h
        refine ⟨fun hn => ?_, fun hw => ?_, fun hd => ?_⟩
        · simp [hn, strOr]
        · simp [hw, strOr]
        · simp [hd, strOr]

/-- C6 witness: enriching domain acme.com with a response carrying no
company object yields company.name = "acme.com", company.website =
"https://acme.com" and company.domain = "acme.com". -/
theorem mapEnrich_company_fallbacks_witness :
    (mapEnrichResponseToData respAcme "acme.com").map
        (fun d => (d.company.name, d.company.website, d.company.domain))
      = some ("acme.com", "https://acme.com", "acme.com") := by
  cases hmap : mapEnrichResponseToData respAcme "acme.com" with
  | none => exact absurd hmap (by decide)
  | some d =>
    have h := mapEnrich_company_fallbacks respAcme "acme.com" d hmap
    have hn := h.1 rfl
    have hw := h.2.1 rfl
    have hd := h.2.2 rfl
    simp [hn, hw, hd]

/-- C7: a paid-lookup response with HTTP status 402 and error code
INSUFFICIENT_CREDITS makes both searchPerson and enrichPerson fail with an
error whose message contains the remaining balance. -/
theorem insufficientCredits_message_contains_balance :
    ∀ (sd : SearchPersonResponse) (ed : EnrichPersonResponse),
      (sd.error_code = some "INSUFFICIENT_CREDITS" →
        ∃ pre post, handleSearchPersonResponse 402 sd
          = Except.error (pre ++ toString sd.balance ++ post)) ∧
      (ed.error_code = some "INSUFFICIENT_CREDITS" →
        ∃ pre post, handleEnrichPersonResponse 402 ed
          = Except.error (pre ++ toString ed.balance ++ post)) := by
  intro sd ed
  constructor
  · intro h
    refine ⟨"Insufficient credits. You have ", " credits remaining.", ?_⟩
    simp [handleSearchPersonResponse, isInsufficientCreditsCode, h]
  · intro h
    refine ⟨"Insufficient credits. You have ", " credits remaining.", ?_⟩
    simp [handleEnrichPersonResponse, isInsufficientCreditsCode, h]

/-- C7 witness: with balance 3 both failure messages contain "3". -/
theorem insufficientCredits_message_contains_balance_witness :
    (∃ pre post, handleSearchPersonResponse 402 searchBody3
      = Except.error (pre ++ "3" ++ post)) ∧
    (∃ pre post, handleEnrichPersonResponse 402 enrichBody3
      = Except.error (pre ++ "3" ++ post)) := by
  have h := insufficientCredits_message_contains_balance searchBody3 enrichBody3
  obtain ⟨pre1, post1, h1⟩ := h.1 rfl
  obtain ⟨pre2, post2, h2⟩ := h.2 rfl
  exact ⟨⟨pre1, post1, h1⟩, ⟨pre2, post2, h2⟩⟩

/-- C8: loadAll merges the email and company logs, tags every email entry
(including untyped legacy ones) with the email type, and returns the union
sorted by createdAt descending. -/
theorem loadAllHistory_merge_sorted :
    ∀ (emails : List SearchHistoryEntry) (companies : List CompanySearchHistoryEntry),
      (∀ se : SearchHistoryEntry,
        HistoryEntry.email se ∈ loadAllHistory emails companies →
          se.type = some "email") ∧
      (loadAllHistory emails companies).Pairwise
        (fun a b => b.createdAt ≤ a.createdAt) ∧
      (loadAllHistory emails companies).Perm
        (emails.map (fun e => HistoryEntry.email { e with type := some "email" })
          ++ companies.map HistoryEntry.company) := by
  intro emails companies
  refine ⟨?_, ?_, ?_⟩
  · intro se hmem
    have h1 := mem_sortByLe.mp hmem
    rcases List.mem_append.mp h1 with h2 | h2
    · obtain ⟨e1, he1, heq⟩ := List.mem_map.mp h2
      obtain ⟨e0, _, heq0⟩ := List.mem_map.mp he1
      have hse : e1 = se := HistoryEntry.email.inj heq
      rw [← hse, ← heq0]
    · obtain ⟨c0, _, heq⟩ := List.mem_map.mp h2
      exact absurd heq (by simp)
  · have hp := pairwise_sortByLe histLeb_total histLeb_trans
      ((emails.map (fun e => ({ e with type := some "email" } : SearchHistoryEntry))).map
          HistoryEntry.email
        ++ companies.map HistoryEntry.company)
    exact hp.imp (fun hab => of_decide_eq_true hab)
  · simp only [loadAllHistory]
    refine (sortByLe_perm _ _).trans ?_
    rw [List.map_map]
    exact List.Perm.refl _

/-- C8 witness: the legacy untyped email entry at t = 10 is tagged with the
email type, and the merge of it with a company entry at t = 20 is exactly
the sequence company(20), email(10). -/
theorem loadAllHistory_merge_sorted_witness :
    ({ em10 with type := some "email" } : SearchHistoryEntry).type = some "email" ∧
    loadAllHistory [em10] [co20]
      = [HistoryEntry.company co20,
         HistoryEntry.email { em10 with type := some "email" }] := by
  constructor
  · exact (loadAllHistory_merge_sorted [em10] [co20]).1
      { em10 with type := some "email" } (by decide)
  · decide

/-- C9: groupByDepartment places each employee in every group named by that
employee's departments list, so an employee with N departments appears in N
groups simultaneously. -/
theorem groupByDepartment_multi_membership :
    ∀ (es : List Employee) (e : Employee) (d : String),
      e ∈ es → d ∈ e.departments →
      ∃ g, g ∈ groupByDepartment es ∧ g.name = d ∧ e ∈ g.employees := by
  intro es e d he hd
  have hm := mem_buildDeptMap es e d he hd
  cases hget : mapGet (buildDeptMap es) d with
  | none => rw [hget] at hm; simp at hm
  | some xs =>
    have hkey : d ∈ (buildDeptMap es).map Prod.fst := mem_keys_of_mapGet hget
    have hsorted : d ∈ sortByLe deptLeb ((buildDeptMap es).map Prod.fst) :=
      mem_sortByLe.mpr hkey
    refine ⟨{ name := d, employees := (mapGet (buildDeptMap es) d).getD [] },
      ?_, rfl, hm⟩
    simp only [groupByDepartment]
    exact List.mem_map_of_mem _ hsorted

/-- C9 witness: the employee whose departments are Sales and Marketing
appears in both the Sales and the Marketing group. -/
theorem groupByDepartment_multi_membership_witness :
    (∃ g, g ∈ groupByDepartment [empSM] ∧ g.name = "Sales" ∧ empSM ∈ g.employees) ∧
    (∃ g, g ∈ groupByDepartment [empSM] ∧ g.name = "Marketing" ∧ empSM ∈ g.employees) :=
  ⟨groupByDepartment_multi_membership [empSM] empSM "Sales" (by decide) (by decide),
   groupByDepartment_multi_membership [empSM] empSM "Marketing" (by decide) (by decide)⟩

end EmailFinder
